import Mathlib

/-!
Verification of the geospatial selection and reactive aggregation engine of
the accidents-explorer application (`app.py`).  The Python callback
`update_map` together with the load-time setup (k-d tree, color registry,
grid chart builder) is shallowly embedded below over exact rational
arithmetic.  Machine floats of the source are modelled by `Rat`; Python
exceptions (KeyError, IndexError, ValueError) are modelled by `Option`
results (`none` = the call raises).
-/

namespace Accidents

/-- A planar point, `(x, y)` = (longitude, latitude), as used for the rows of
the k-d tree input `points = np.array([(p.x, p.y) for p in gdf_copy.geometry])`.
Coordinates are exact rationals standing for the float degrees of the source. -/
structure Pt where
  x : ℚ
  y : ℚ
  deriving DecidableEq, Repr

/-- Squared Euclidean distance between two points.  Both the k-d tree query
and the circle-containment test of the source compare Euclidean distances;
we compare squared distances, which is equivalent for nonnegative radii. -/
def distSq (p q : Pt) : ℚ := (p.x - q.x) ^ 2 + (p.y - q.y) ^ 2

/-- The meters-to-degrees conversion of `update_map`:
`buffer = center_point.buffer(radius / 111320)` (app.py line 300). -/
def metersToDegrees (radiusMeters : ℚ) : ℚ := radiusMeters / 111320

/-- Positions (0-based row indices) of the dataset points satisfying a
predicate, in ascending index order.  This is the index set of a boolean
mask filter over the GeoDataFrame. -/
def idxFilter (pts : List Pt) (pred : Pt → Bool) : List Nat :=
  (List.range pts.length).filter (fun i => pred (pts.getD i ⟨0, 0⟩))

/-- `tree.query_ball_point(q, r)` of scipy: all indices of dataset points
whose Euclidean distance to the query point is at most `r`.  The radius is
passed squared (`rSq = r ^ 2`), which for `r ≥ 0` is equivalent to the
distance comparison scipy performs. -/
def query_ball_point (pts : List Pt) (q : Pt) (rSq : ℚ) : List Nat :=
  idxFilter pts (fun p => decide (distSq p q ≤ rSq))

/-- `buffer.contains(Point(points[i]))` (app.py line 308).  The shapely
buffer around the click point is modelled as the exact disk of radius
`rDeg` degrees; shapely `contains` holds only for points of the interior,
so containment is strict. -/
def bufferContains (c : Pt) (rDeg : ℚ) (p : Pt) : Bool :=
  decide (distSq p c < rDeg ^ 2)

/-- The candidate phase of `update_map` (app.py lines 303-305):
`minx, miny, maxx, maxy = buffer.bounds` (bounds of the disk of
`metersToDegrees radiusMeters` degrees around the click point), then
`tree.query_ball_point([(minx+maxx)/2, (miny+maxy)/2], r = sqrt((maxx-minx)^2 + (maxy-miny)^2)/2)`.
The search radius is passed squared to `query_ball_point`. -/
def radiusCandidates (pts : List Pt) (c : Pt) (radiusMeters : ℚ) : List Nat :=
  query_ball_point pts
    ⟨((c.x - metersToDegrees radiusMeters) + (c.x + metersToDegrees radiusMeters)) / 2,
     ((c.y - metersToDegrees radiusMeters) + (c.y + metersToDegrees radiusMeters)) / 2⟩
    ((((c.x + metersToDegrees radiusMeters) - (c.x - metersToDegrees radiusMeters)) ^ 2 +
      ((c.y + metersToDegrees radiusMeters) - (c.y - metersToDegrees radiusMeters)) ^ 2) / 4)

/-- The exact phase of `update_map` (app.py line 308):
`filtered_indices = [i for i in candidates if buffer.contains(Point(points[i]))]`.
The two-phase radius-mode Region Resolver. -/
def resolveRadius (pts : List Pt) (c : Pt) (radiusMeters : ℚ) : List Nat :=
  (radiusCandidates pts c radiusMeters).filter
    (fun i => bufferContains c (metersToDegrees radiusMeters) (pts.getD i ⟨0, 0⟩))

theorem mem_idxFilter {pts : List Pt} {pred : Pt → Bool} {i : Nat} :
    i ∈ idxFilter pts pred ↔ i < pts.length ∧ pred (pts.getD i ⟨0, 0⟩) = true := by
  simp [idxFilter, List.mem_filter, List.mem_range]

theorem buffer_subset_candidates (pts : List Pt) (c : Pt) (radiusMeters : ℚ)
    (i : Nat) (hi : i < pts.length)
    (hb : bufferContains c (metersToDegrees radiusMeters) (pts.getD i ⟨0, 0⟩) = true) :
    i ∈ radiusCandidates pts c radiusMeters := by
  have hlt : distSq (pts.getD i ⟨0, 0⟩) c < metersToDegrees radiusMeters ^ 2 := by
    simpa [bufferContains] using hb
  rw [radiusCandidates, query_ball_point, mem_idxFilter]
  refine ⟨hi, ?_⟩
  rw [decide_eq_true_eq]
  set r := metersToDegrees radiusMeters with hr
  set p := pts.getD i ⟨0, 0⟩ with hp
  have hq : distSq p ⟨((c.x - r) + (c.x + r)) / 2, ((c.y - r) + (c.y + r)) / 2⟩
      = distSq p c := by
    simp only [distSq]
    ring
  have hdiag : ((((c.x + r) - (c.x - r)) ^ 2 + ((c.y + r) - (c.y - r)) ^ 2) / 4)
      = 2 * r ^ 2 := by ring
  rw [hq, hdiag]
  nlinarith [sq_nonneg r]

/-- Claim C1: the two-phase radius query never under-returns: every dataset
point strictly inside the buffered disk is among the k-d tree candidates
(query at the bounding-box center with half the bounding-box diagonal as
search radius), so filtering the candidates by exact containment yields
exactly the positions of all dataset points inside the disk. -/
theorem radius_two_phase_exact (pts : List Pt) (c : Pt) (radiusMeters : ℚ) :
    resolveRadius pts c radiusMeters =
      idxFilter pts (bufferContains c (metersToDegrees radiusMeters)) := by
  rw [resolveRadius, idxFilter]
  have hc : radiusCandidates pts c radiusMeters =
      (List.range pts.length).filter
        (fun i => decide (distSq (pts.getD i ⟨0, 0⟩)
          ⟨((c.x - metersToDegrees radiusMeters) + (c.x + metersToDegrees radiusMeters)) / 2,
           ((c.y - metersToDegrees radiusMeters) + (c.y + metersToDegrees radiusMeters)) / 2⟩ ≤
          (((c.x + metersToDegrees radiusMeters) - (c.x - metersToDegrees radiusMeters)) ^ 2 +
           ((c.y + metersToDegrees radiusMeters) - (c.y - metersToDegrees radiusMeters)) ^ 2) / 4)) :=
    rfl
  rw [hc, List.filter_filter]
  refine List.filter_congr ?_
  intro i hi
  rw [List.mem_range] at hi
  set r := metersToDegrees radiusMeters with hr
  set p := pts.getD i ⟨0, 0⟩ with hp
  cases hb : bufferContains c r p
  · simp
  · simp only [Bool.true_and]
    have hlt : distSq p c < r ^ 2 := by simpa [bufferContains] using hb
    rw [decide_eq_true_eq]
    have hq : distSq p ⟨((c.x - r) + (c.x + r)) / 2, ((c.y - r) + (c.y + r)) / 2⟩
        = distSq p c := by
      simp only [distSq]
      ring
    have hdiag : ((((c.x + r) - (c.x - r)) ^ 2 + ((c.y + r) - (c.y - r)) ^ 2) / 4)
        = 2 * r ^ 2 := by ring
    rw [hq, hdiag]
    nlinarith [sq_nonneg r]

/-- Claim C10: radius-mode containment is strict.  A dataset point whose
squared distance to the click center equals the squared disk radius (a point
exactly on the disk boundary) is excluded from the resolved subset, because
`buffer.contains` requires strict interior containment. -/
theorem radius_boundary_excluded (pts : List Pt) (c : Pt) (radiusMeters : ℚ) (i : Nat)
    (h : distSq (pts.getD i ⟨0, 0⟩) c = metersToDegrees radiusMeters ^ 2) :
    i ∉ resolveRadius pts c radiusMeters := by
  intro hmem
  rw [resolveRadius, List.mem_filter] at hmem
  have hb := hmem.2
  rw [bufferContains, decide_eq_true_eq, h] at hb
  exact lt_irrefl _ hb

/-- Witness for C10 at a concrete input: one dataset point at distance
exactly one degree from the click center, radius 111320 meters = 1 degree. -/
theorem radius_boundary_excluded_witness :
    distSq ((([⟨1, 0⟩] : List Pt)).getD 0 ⟨0, 0⟩) ⟨0, 0⟩ = metersToDegrees 111320 ^ 2 ∧
    (0 : Nat) ∉ resolveRadius [⟨1, 0⟩] ⟨0, 0⟩ 111320 :=
  ⟨by norm_num [distSq, metersToDegrees],
   radius_boundary_excluded [⟨1, 0⟩] ⟨0, 0⟩ 111320 0 (by norm_num [distSq, metersToDegrees])⟩

/-!
## Color Registry and Aggregation Engine

Category values of the dataset columns are the numeric codes stored in the
CSV (month numbers, road-type codes, severity codes, ...), modelled as `ℕ`.
The source keys its color dictionary by `str(value)`; since `str` is
injective on these codes, the registry is modelled as keyed by the code
itself.  Colors are strings (the hex entries of the discrete palette).
-/

/-- `df[col].unique()` of pandas: the distinct values of a column in order
of first appearance.  `seen` accumulates the values already emitted. -/
def uniqueFirstSeenAux : List ℕ → List ℕ → List ℕ
  | [], _ => []
  | v :: vs, seen =>
    if v ∈ seen then uniqueFirstSeenAux vs seen
    else v :: uniqueFirstSeenAux vs (v :: seen)

/-- The distinct values of a column in first-appearance (Dataset scan) order. -/
def uniqueFirstSeen (vals : List ℕ) : List ℕ := uniqueFirstSeenAux vals []

/-- The loop body of the color assignment (app.py lines 170-172):
`for i, item_name in enumerate(df[col].unique()): items[str(item_name)] = px.colors.qualitative.Dark24[i]`.
Python list indexing `palette[i]` raises IndexError when `i` is out of
range; the raise is modelled by `none`. -/
def assignColorsAux (palette : List String) : List ℕ → Nat → Option (List (ℕ × String))
  | [], _ => some []
  | v :: vs, i =>
    match palette[i]? with
    | none => none
    | some c =>
      match assignColorsAux palette vs (i + 1) with
      | none => none
      | some rest => some ((v, c) :: rest)

/-- The per-column color registry `col_values_color[col]` (app.py lines
166-173): the i-th distinct value of the column in Dataset scan order is
paired with the i-th palette entry. -/
def col_values_color (vals : List ℕ) (palette : List String) : Option (List (ℕ × String)) :=
  assignColorsAux palette (uniqueFirstSeen vals) 0

/-- Dictionary lookup in the registry, as performed by
`.map(col_values_color[selected_column])` (app.py line 290).  A missing key
yields pandas NaN, modelled by `none`. -/
def lookupColor (reg : List (ℕ × String)) (v : ℕ) : Option String :=
  (reg.find? (fun kv => kv.1 == v)).map (fun kv => kv.2)

/-- One record of the working GeoDataFrame restricted to the columns the
Aggregation Engine reads: the active-column value and the color attached by
the registry lookup (`none` = NaN). -/
structure Row where
  val : ℕ
  color : Option String
  deriving DecidableEq, Repr

/-- `gdf_copy['color'] = gdf_copy[selected_column].astype(str).map(col_values_color[selected_column])`
(app.py line 290): attach to every value its registry color. -/
def withColors (reg : List (ℕ × String)) (vals : List ℕ) : List Row :=
  vals.map (fun v => ⟨v, lookupColor reg v⟩)

/-- Sorted-set insertion: place `v` into an ascending list of distinct keys,
keeping it distinct.  Used to model the group keys of pandas `groupby`,
which are the distinct key values in ascending order. -/
def insertKey (v : ℕ) : List ℕ → List ℕ
  | [] => [v]
  | k :: ks =>
    if v = k then k :: ks
    else if v < k then v :: k :: ks
    else k :: insertKey v ks

/-- The group keys of `gdf_copy.groupby(selected_column)` (app.py line 347):
the distinct values of the column, in ascending order (pandas groupby sorts
group keys by default). -/
def sortedKeys (vals : List ℕ) : List ℕ := vals.foldr (fun v acc => insertKey v acc) []

/-- One output row of
`gdf_copy.groupby(selected_column).agg(color=('color','first'), count_=('color','count'))`:
the group key, the first non-null color of the group, and the number of
non-null colors in the group (pandas `first` and `count` both skip nulls). -/
structure SummaryEntry where
  val : ℕ
  color : Option String
  count : Nat
  deriving DecidableEq, Repr

/-- The aggregation of app.py line 347 producing `color_label_count`. -/
def aggregate (rows : List Row) : List SummaryEntry :=
  (sortedKeys (rows.map Row.val)).map (fun k =>
    ⟨k,
     ((rows.filter (fun r => r.val == k)).filterMap Row.color).head?,
     ((rows.filter (fun r => r.val == k)).filter (fun r => r.color.isSome)).length⟩)

/-- `color_label_count['count_'].sum()` (app.py line 348): the denominator
of the percentage computation. -/
def totalCount (rows : List Row) : Nat :=
  ((aggregate rows).map SummaryEntry.count).sum

/-- Python 3 `round` on a float: round to the nearest integer, ties to the
even integer (bankers rounding).  Operands are modelled as exact rationals. -/
def roundHalfEven (q : ℚ) : ℤ :=
  if Int.fract q < 1 / 2 then ⌊q⌋
  else if (1 : ℚ) / 2 < Int.fract q then ⌊q⌋ + 1
  else if ⌊q⌋ % 2 = 0 then ⌊q⌋ else ⌊q⌋ + 1

/-- `color_label_count['count_normalized'] = (count_/count_.sum()).apply(lambda p: round(p * 100))`
(app.py line 348): the rounded percentage of each category. -/
def percentages (rows : List Row) : List ℤ :=
  (aggregate rows).map (fun e => roundHalfEven ((e.count : ℚ) / (totalCount rows : ℚ) * 100))

/-!
## Unit-grid chart builder (`create_grid_scatterplot`, app.py lines 69-149)
-/

/-- One entry of the `point_configs` argument: a requested number of points
and the topic label attached to them (the color key of the figure). -/
structure GridConfig where
  num_points : Nat
  topic : String
  deriving DecidableEq, Repr

/-- The inner loop of `create_grid_scatterplot` (app.py lines 102-112):
starting from a running point counter `total`, place up to `n` points; a
point is dropped once the counter has reached 100, otherwise it is placed at
column `total % 10`, row `total / 10`, and the counter advances. -/
def placeRun (topic : String) : Nat → Nat → List (Nat × Nat × String)
  | 0, _ => []
  | n + 1, total =>
    if 100 ≤ total then []
    else (total % 10, total / 10, topic) :: placeRun topic n (total + 1)

/-- The outer loop over `point_configs`: each configuration continues from
the running counter left by the previous one. -/
def gridPoints : List GridConfig → Nat → List (Nat × Nat × String)
  | [], _ => []
  | cfg :: rest, total =>
    placeRun cfg.topic cfg.num_points total ++
      gridPoints rest (total + (placeRun cfg.topic cfg.num_points total).length)

/-- The grid points of the figure built by `create_grid_scatterplot`. -/
def create_grid_scatterplot (configs : List GridConfig) : List (Nat × Nat × String) :=
  gridPoints configs 0

/-- Total number of requested points across all configurations. -/
def sumPoints (configs : List GridConfig) : Nat :=
  (configs.map GridConfig.num_points).sum

/-!
## Polygon mode (`update_map`, app.py lines 317-341)

Point-in-polygon containment is performed by shapely
`gdf_copy.geometry.within(polygon)`.  For a point and a simple polygon,
shapely `within` holds exactly when the point lies in the interior of the
polygon: points on the boundary are not `within`.  It is embedded as the
standard even-odd ray casting together with an explicit boundary test that
forces the result to `false` on the boundary.
-/

/-- The closed edge ring of a polygon given by its vertex list (shapely
closes the ring from the last vertex back to the first). -/
def polyEdges (poly : List Pt) : List (Pt × Pt) :=
  match poly with
  | [] => []
  | p :: ps => (p :: ps).zip (ps ++ [p])

/-- Whether `p` lies on the closed segment from `a` to `b`: collinearity
plus bounding-box membership, in exact rational arithmetic. -/
def onSeg (a b p : Pt) : Bool :=
  decide ((b.x - a.x) * (p.y - a.y) - (b.y - a.y) * (p.x - a.x) = 0) &&
  decide (min a.x b.x ≤ p.x) && decide (p.x ≤ max a.x b.x) &&
  decide (min a.y b.y ≤ p.y) && decide (p.y ≤ max a.y b.y)

/-- Whether the horizontal ray from `p` to the right crosses the edge from
`a` to `b` (standard even-odd crossing rule). -/
def edgeCrosses (p a b : Pt) : Bool :=
  (decide (p.y < a.y) != decide (p.y < b.y)) &&
  decide (p.x < a.x + (b.x - a.x) * (p.y - a.y) / (b.y - a.y))

/-- Shapely `Point(p).within(polygon)`: strict interior containment.  A
point on the polygon boundary is not `within`; otherwise membership is
decided by the parity of ray crossings. -/
def withinPolygon (p : Pt) (poly : List Pt) : Bool :=
  !((polyEdges poly).any (fun e => onSeg e.1 e.2 p)) &&
  ((polyEdges poly).countP (fun e => edgeCrosses p e.1 e.2)) % 2 == 1

/-- The polygon filter `gdf_copy[gdf_copy.geometry.within(polygon)]`
(app.py lines 324 and 339): positions of the dataset points strictly inside
the polygon. -/
def resolveDrawnPolygon (pts : List Pt) (poly : List Pt) : List Nat :=
  idxFilter pts (fun p => withinPolygon p poly)

/-- `shapely.geometry.Polygon(coords)` (app.py line 337): the constructor
raises ValueError when given fewer than 3 coordinates (modelled by `none`);
otherwise it produces the polygon with those vertices. -/
def mkPolygon (coords : List Pt) : Option (List Pt) :=
  if coords.length < 3 then none else some coords

/-- The stored-polygon fallback path of `update_map` (app.py lines 332-340):
with stored `polygon_positions` given as (lat, lng) pairs.  An empty (falsy)
position list skips the filtering, leaving the full dataset; otherwise the
positions are swapped to (lon, lat), a shapely Polygon is constructed (a
raise propagates as `none`) and the dataset is filtered by `within`. -/
def resolveStoredPolygon (positions : List (ℚ × ℚ)) (pts : List Pt) : Option (List Nat) :=
  if positions.isEmpty then some (List.range pts.length)
  else
    match mkPolygon (positions.map (fun q => ⟨q.2, q.1⟩)) with
    | none => none
    | some poly => some (resolveDrawnPolygon pts poly)

/-!
## Column-changed events (`update_map`, app.py lines 287-290)

The callback begins with `gdf_copy[selected_column].astype(str).map(col_values_color[selected_column])`.
The frame is modelled as an association list from column name to the list of
that column's values; a missing column raises KeyError (modelled `none`),
and likewise for the registry dictionary. -/

/-- `gdf_copy[selected_column]`: series lookup by column name; KeyError is
modelled by `none`. -/
def selectSeries (frame : List (String × List ℕ)) (col : String) : Option (List ℕ) :=
  (frame.find? (fun c => c.1 == col)).map (fun c => c.2)

/-- The color-attachment step of `update_map` (app.py lines 289-290) for a
requested active column: look the column up in the frame, look its color
dictionary up in `col_values_color`, and attach colors to the values.
`none` models an uncaught KeyError escaping the callback. -/
def update_map_colors (frame : List (String × List ℕ))
    (registry : List (String × List (ℕ × String))) (col : String) : Option (List Row) :=
  match selectSeries frame col with
  | none => none
  | some vals =>
    match (registry.find? (fun c => c.1 == col)).map (fun c => c.2) with
    | none => none
    | some reg => some (withColors reg vals)

/-!
## Theorems
-/

theorem placeRun_length (topic : String) :
    ∀ (n total : Nat), (placeRun topic n total).length = min n (100 - total) := by
  intro n
  induction n with
  | zero => intro total; simp [placeRun]
  | succ n ih =>
    intro total
    by_cases h : 100 ≤ total
    · simp only [placeRun, if_pos h, List.length_nil]
      omega
    · simp only [placeRun, if_neg h, List.length_cons, ih (total + 1)]
      omega

theorem gridPoints_length :
    ∀ (configs : List GridConfig) (total : Nat),
      (gridPoints configs total).length = min (sumPoints configs) (100 - total) := by
  intro configs
  induction configs with
  | nil => intro total; simp [gridPoints, sumPoints]
  | cons cfg rest ih =>
    intro total
    simp only [gridPoints, List.length_append, placeRun_length, ih, sumPoints,
      List.map_cons, List.sum_cons]
    omega

/-- Claim C9: the unit-grid chart builder produces at most 100 points
(a 10 by 10 grid); the number of points placed is exactly the minimum of the
total requested count and 100, so once the grid is full every remaining
requested point of every remaining configuration is dropped. -/
theorem grid_capped_at_100 (configs : List GridConfig) :
    (create_grid_scatterplot configs).length = min (sumPoints configs) 100 ∧
    (create_grid_scatterplot configs).length ≤ 100 := by
  have h := gridPoints_length configs 0
  rw [create_grid_scatterplot]
  constructor
  · simpa using h
  · rw [h]; omega

theorem assignColorsAux_some (palette : List String) :
    ∀ (l : List ℕ) (i : Nat), i + l.length ≤ palette.length →
      ∃ m, assignColorsAux palette l i = some m ∧ m.length = l.length ∧
        ∀ j, j < l.length → m.getD j (0, "") = (l.getD j 0, palette.getD (i + j) "") := by
  intro l
  induction l with
  | nil =>
    intro i _
    exact ⟨[], rfl, rfl, fun j hj => by simp at hj⟩
  | cons v vs ih =>
    intro i hle
    have hi : i < palette.length := by
      simp only [List.length_cons] at hle; omega
    have hget : palette[i]? = some palette[i] := List.getElem?_eq_getElem hi
    obtain ⟨m', hm', hlen', hidx'⟩ := ih (i + 1) (by simp only [List.length_cons] at hle; omega)
    refine ⟨(v, palette[i]) :: m', ?_, by simp [hlen'], ?_⟩
    · simp only [assignColorsAux, hget, hm']
    · intro j hj
      match j with
      | 0 =>
        simp only [List.getD_cons_zero]
        have : palette.getD (i + 0) "" = palette[i] := by
          simp [List.getD_eq_getElem?_getD, hget]
        rw [this]
      | j + 1 =>
        simp only [List.getD_cons_succ]
        have hj' : j < vs.length := by simp only [List.length_cons] at hj; omega
        have := hidx' j hj'
        rw [this]
        have harith : i + 1 + j = i + (j + 1) := by omega
        rw [harith]

theorem assignColorsAux_none (palette : List String) :
    ∀ (l : List ℕ) (i : Nat), l ≠ [] → palette.length < i + l.length →
      assignColorsAux palette l i = none := by
  intro l
  induction l with
  | nil => intro i h _; exact absurd rfl h
  | cons v vs ih =>
    intro i _ hlt
    by_cases hi : i < palette.length
    · have hvs : vs ≠ [] := by
        intro hnil
        rw [hnil] at hlt
        simp only [List.length_cons, List.length_nil] at hlt
        omega
      have hrec := ih (i + 1) hvs (by simp only [List.length_cons] at hlt; omega)
      have hget : palette[i]? = some palette[i] := List.getElem?_eq_getElem hi
      simp only [assignColorsAux, hget, hrec]
    · have hget : palette[i]? = none := by
        rw [List.getElem?_eq_none_iff]
        omega
      simp only [assignColorsAux, hget]

/-- Claim C3 (amended): the i-th distinct value of a column in Dataset scan
order is mapped to `palette[i]` by plain indexing, with no modulo: the
assignment succeeds exactly when the number of distinct values is at most
the palette size, and when the distinct values outnumber the palette the
loop raises IndexError (modelled `none`) instead of cycling. -/
theorem color_plain_indexing (vals : List ℕ) (palette : List String) :
    ((uniqueFirstSeen vals).length ≤ palette.length →
      ∃ m, col_values_color vals palette = some m ∧
        m.length = (uniqueFirstSeen vals).length ∧
        ∀ j, j < (uniqueFirstSeen vals).length →
          m.getD j (0, "") = ((uniqueFirstSeen vals).getD j 0, palette.getD j "")) ∧
    (palette.length < (uniqueFirstSeen vals).length →
      col_values_color vals palette = none) := by
  constructor
  · intro hle
    obtain ⟨m, hm, hlen, hidx⟩ :=
      assignColorsAux_some palette (uniqueFirstSeen vals) 0 (by omega)
    exact ⟨m, hm, hlen, fun j hj => by simpa using hidx j hj⟩
  · intro hlt
    have hne : uniqueFirstSeen vals ≠ [] := by
      intro hnil
      rw [hnil] at hlt
      simp at hlt
    exact assignColorsAux_none palette (uniqueFirstSeen vals) 0 hne (by omega)

/-- Witness for C3 (amended) at a concrete input: two distinct values, a
two-color palette. -/
theorem color_plain_indexing_witness :
    (uniqueFirstSeen [5, 3]).length ≤ (["a", "b"] : List String).length ∧
    ∃ m, col_values_color [5, 3] ["a", "b"] = some m ∧
      m.length = (uniqueFirstSeen [5, 3]).length ∧
      ∀ j, j < (uniqueFirstSeen [5, 3]).length →
        m.getD j (0, "") = ((uniqueFirstSeen [5, 3]).getD j 0, (["a", "b"] : List String).getD j "") :=
  ⟨by decide, (color_plain_indexing [5, 3] ["a", "b"]).1 (by decide)⟩

/-- Claim C3 counterexample: a column with two distinct values and a
one-color palette.  The claim predicts cyclic colors `palette[i mod 1]`
(both values colored "a", no error); the code raises IndexError at the
second distinct value, modelled by `none`. -/
theorem color_overflow_cex :
    col_values_color [1, 2] ["a"] = none ∧
    col_values_color [1, 2] ["a"] ≠ some [(1, "a"), (2, "a")] := by
  refine ⟨?_, ?_⟩ <;> decide

theorem mem_insertKey {a v : ℕ} : ∀ {l : List ℕ}, a ∈ insertKey v l ↔ a = v ∨ a ∈ l := by
  intro l
  induction l with
  | nil => simp [insertKey]
  | cons k ks ih =>
    rw [insertKey]
    by_cases h1 : v = k
    · subst h1
      rw [if_pos rfl]
      simp only [List.mem_cons] <;> tauto
    · rw [if_neg h1]
      by_cases h2 : v < k
      · rw [if_pos h2]
        simp only [List.mem_cons] <;> tauto
      · rw [if_neg h2]
        simp only [List.mem_cons, ih] <;> tauto

theorem mem_sortedKeys {a : ℕ} : ∀ {vals : List ℕ}, a ∈ sortedKeys vals ↔ a ∈ vals := by
  intro vals
  induction vals with
  | nil => simp [sortedKeys]
  | cons v vs ih =>
    have h : sortedKeys (v :: vs) = insertKey v (sortedKeys vs) := rfl
    rw [h, mem_insertKey, ih, List.mem_cons]

theorem sorted_insertKey (v : ℕ) :
    ∀ {l : List ℕ}, l.Sorted (· < ·) → (insertKey v l).Sorted (· < ·) := by
  intro l
  induction l with
  | nil => intro _; simp [insertKey]
  | cons k ks ih =>
    intro hs
    rw [List.sorted_cons] at hs
    obtain ⟨hk, hks⟩ := hs
    rw [insertKey]
    by_cases h1 : v = k
    · rw [if_pos h1]
      exact List.sorted_cons.mpr ⟨hk, hks⟩
    · rw [if_neg h1]
      by_cases h2 : v < k
      · rw [if_pos h2]
        refine List.sorted_cons.mpr ⟨?_, List.sorted_cons.mpr ⟨hk, hks⟩⟩
        intro b hb
        rcases List.mem_cons.mp hb with rfl | hb'
        · exact h2
        · exact lt_trans h2 (hk b hb')
      · rw [if_neg h2]
        have hkv : k < v := by omega
        refine List.sorted_cons.mpr ⟨?_, ih hks⟩
        intro b hb
        rcases mem_insertKey.mp hb with rfl | hb'
        · exact hkv
        · exact hk b hb'

theorem sorted_sortedKeys : ∀ (vals : List ℕ), (sortedKeys vals).Sorted (· < ·) := by
  intro vals
  induction vals with
  | nil => simp [sortedKeys]
  | cons v vs ih => exact sorted_insertKey v ih

theorem filter_withColors (reg : List (ℕ × String)) (k : ℕ) :
    ∀ s : List ℕ, (withColors reg s).filter (fun r => r.val == k)
      = List.replicate (s.count k) ⟨k, lookupColor reg k⟩ := by
  intro s
  induction s with
  | nil => simp [withColors]
  | cons w ws ih =>
    have hcons : withColors reg (w :: ws) = ⟨w, lookupColor reg w⟩ :: withColors reg ws := rfl
    rw [hcons, List.filter_cons]
    by_cases hw : w = k
    · subst hw
      simp only [beq_self_eq_true, if_true, List.count_cons_self, ih, List.replicate_succ]
    · have hbeq : (w == k) = false := beq_eq_false_iff_ne.mpr hw
      have hkw : (k == w) = false := beq_eq_false_iff_ne.mpr (Ne.symm hw)
      have hcnt : (w :: ws).count k = ws.count k := by simp [List.count_cons, hkw, hw]
      simp only [hbeq, Bool.false_eq_true, if_false, ih, hcnt]

theorem filterMap_color_replicate (k : ℕ) (c? : Option String) :
    ∀ n : Nat, (List.replicate n (⟨k, c?⟩ : Row)).filterMap Row.color
      = (match c? with | some c => List.replicate n c | none => []) := by
  intro n
  induction n with
  | zero => cases c? <;> simp
  | succ n ih =>
    rw [List.replicate_succ, List.filterMap_cons]
    cases c? with
    | some c =>
      simp only at ih ⊢
      rw [ih, List.replicate_succ]
    | none =>
      exact ih

theorem aggregate_color_lookup (reg : List (ℕ × String)) (s : List ℕ) (e : SummaryEntry)
    (he : e ∈ aggregate (withColors reg s)) : e.color = lookupColor reg e.val := by
  rw [aggregate] at he
  obtain ⟨k, hk, rfl⟩ := List.mem_map.mp he
  have hmapval : (withColors reg s).map Row.val = s := by
    have hcomp : (Row.val ∘ fun v => (⟨v, lookupColor reg v⟩ : Row)) = id := rfl
    rw [withColors, List.map_map, hcomp, List.map_id]
  rw [hmapval] at hk
  have hks : k ∈ s := mem_sortedKeys.mp hk
  have hcount : s.count k ≠ 0 := fun h => (List.count_eq_zero.mp h) hks
  show (((withColors reg s).filter (fun r => r.val == k)).filterMap Row.color).head?
      = lookupColor reg k
  rw [filter_withColors, filterMap_color_replicate]
  cases hc : lookupColor reg k with
  | some c => simp [List.head?_replicate, hcount]
  | none => simp

/-- Claim C2: color stability.  The registry is computed once from the full
Dataset; for any two filtered subsets of the Dataset containing a common
category value, the color attached to that value by the aggregation is the
same in both summaries, namely the load-time registry color of the value. -/
theorem color_stability (vals : List ℕ) (palette : List String) (reg : List (ℕ × String))
    (hreg : col_values_color vals palette = some reg)
    (s1 s2 : List ℕ) (h1 : s1.Sublist vals) (h2 : s2.Sublist vals)
    (v : ℕ) (e1 e2 : SummaryEntry)
    (he1 : e1 ∈ aggregate (withColors reg s1)) (he2 : e2 ∈ aggregate (withColors reg s2))
    (hv1 : e1.val = v) (hv2 : e2.val = v) :
    e1.color = e2.color ∧ e1.color = lookupColor reg v := by
  have c1 := aggregate_color_lookup reg s1 e1 he1
  have c2 := aggregate_color_lookup reg s2 e2 he2
  rw [hv1] at c1
  rw [hv2] at c2
  exact ⟨c1.trans c2.symm, c1⟩

/-- Witness for C2 at a concrete input: Dataset values [5, 3], palette
["a", "b"], subsets [5] and [5, 3], shared value 5. -/
theorem color_stability_witness :
    (⟨5, some "a", 1⟩ : SummaryEntry).color = (⟨5, some "a", 1⟩ : SummaryEntry).color ∧
    (⟨5, some "a", 1⟩ : SummaryEntry).color = lookupColor [(5, "a"), (3, "b")] 5 :=
  color_stability [5, 3] ["a", "b"] [(5, "a"), (3, "b")] (by decide) [5] [5, 3]
    (List.Sublist.cons₂ 5 (List.nil_sublist [3])) (List.Sublist.refl [5, 3]) 5
    ⟨5, some "a", 1⟩ ⟨5, some "a", 1⟩ (by decide) (by decide) rfl rfl

/-- Claim C8 (amended): the category-summary entries are ordered by
ascending category value (pandas groupby sorts the group keys), not by first
appearance in Dataset order; the keys are exactly the distinct values
present in the subset, so the ordering is deterministic run after run. -/
theorem aggregate_sorted_keys (rows : List Row) :
    ((aggregate rows).map SummaryEntry.val).Sorted (· < ·) ∧
    ∀ v, v ∈ (aggregate rows).map SummaryEntry.val ↔ v ∈ rows.map Row.val := by
  have hmap : (aggregate rows).map SummaryEntry.val = sortedKeys (rows.map Row.val) := by
    rw [aggregate, List.map_map]
    have hcomp : (SummaryEntry.val ∘ fun k =>
        (⟨k, ((rows.filter (fun r => r.val == k)).filterMap Row.color).head?,
          ((rows.filter (fun r => r.val == k)).filter (fun r => r.color.isSome)).length⟩ :
            SummaryEntry)) = id := rfl
    rw [hcomp, List.map_id]
  constructor
  · rw [hmap]
    exact sorted_sortedKeys _
  · intro v
    rw [hmap]
    exact mem_sortedKeys

/-- Claim C8 counterexample: a subset whose values appear in the order
[2, 1].  First-appearance order is [2, 1], but the summary lists the
categories as [1, 2] (ascending), so the claimed ordering fails. -/
theorem aggregate_order_cex :
    (aggregate [⟨2, some "x"⟩, ⟨1, some "y"⟩]).map SummaryEntry.val = [1, 2] ∧
    uniqueFirstSeen [2, 1] = [2, 1] ∧
    ([1, 2] : List ℕ) ≠ [2, 1] := by
  refine ⟨?_, ?_, ?_⟩ <;> decide

theorem roundHalfEven_abs (q : ℚ) : |(roundHalfEven q : ℚ) - q| ≤ 1 / 2 := by
  have hf : Int.fract q = q - (⌊q⌋ : ℚ) := rfl
  have h0 : 0 ≤ Int.fract q := Int.fract_nonneg q
  have h1 : Int.fract q < 1 := Int.fract_lt_one q
  rw [roundHalfEven]
  split_ifs with ha hb hc
  · rw [abs_le]
    constructor <;> push_cast <;> linarith
  · rw [not_lt] at ha
    rw [abs_le]
    constructor <;> push_cast <;> linarith
  · rw [not_lt] at ha hb
    rw [abs_le]
    constructor <;> push_cast <;> linarith
  · rw [not_lt] at ha hb
    rw [abs_le]
    constructor <;> push_cast <;> linarith

theorem sum_roundHalfEven_err :
    ∀ l : List ℚ, |((l.map roundHalfEven).sum : ℚ) - l.sum| ≤ l.length / 2 := by
  intro l
  induction l with
  | nil => simp
  | cons q l ih =>
    have h1 := roundHalfEven_abs q
    rw [abs_le] at h1 ih ⊢
    simp only [List.map_cons, List.sum_cons, List.length_cons]
    push_cast
    push_cast at h1 ih
    constructor <;> linarith [h1.1, h1.2, ih.1, ih.2]

/-- Claim C6 (amended): for a non-empty filtered subset, each category
percentage is `round(100 * count / total)` with Python 3 rounding — nearest
integer, ties to even — and the percentages sum to 100 within plus or minus
(number of categories - 1). -/
theorem percentage_sum_bound (rows : List Row) (h : 0 < totalCount rows) :
    ((percentages rows).sum - 100).natAbs ≤ (aggregate rows).length - 1 := by
  have hperc : percentages rows
      = (((aggregate rows).map SummaryEntry.count).map
          (fun c : ℕ => (c : ℚ) / (totalCount rows : ℚ) * 100)).map roundHalfEven := by
    rw [percentages, List.map_map, List.map_map]
    rfl
  have hsumcounts : ((aggregate rows).map SummaryEntry.count).sum = totalCount rows := rfl
  have hTq : ((totalCount rows : ℕ) : ℚ) ≠ 0 := Nat.cast_ne_zero.mpr h.ne'
  have hcong : ∀ c ∈ (aggregate rows).map SummaryEntry.count,
      (c : ℚ) / (totalCount rows : ℚ) * 100 = (c : ℚ) * (100 / (totalCount rows : ℚ)) :=
    fun c _ => by ring
  have hxsum : (((aggregate rows).map SummaryEntry.count).map
      (fun c : ℕ => (c : ℚ) / (totalCount rows : ℚ) * 100)).sum = 100 := by
    rw [List.map_congr_left hcong, List.sum_map_mul_right, ← Nat.cast_list_sum, hsumcounts]
    field_simp
  have herr := sum_roundHalfEven_err (((aggregate rows).map SummaryEntry.count).map
      (fun c : ℕ => (c : ℚ) / (totalCount rows : ℚ) * 100))
  rw [hxsum] at herr
  have hlen : (((aggregate rows).map SummaryEntry.count).map
      (fun c : ℕ => (c : ℚ) / (totalCount rows : ℚ) * 100)).length = (aggregate rows).length := by
    simp
  rw [hlen] at herr
  have hk : 1 ≤ (aggregate rows).length := by
    rcases hagg : aggregate rows with _ | ⟨e, es⟩
    · rw [totalCount, hagg] at h
      simp at h
    · simp
  have hS : ((percentages rows).sum : ℚ)
      = (((((aggregate rows).map SummaryEntry.count).map
          (fun c : ℕ => (c : ℚ) / (totalCount rows : ℚ) * 100)).map roundHalfEven).sum : ℚ) := by
    rw [hperc]
  rw [abs_le] at herr
  have hk' : (1 : ℚ) ≤ ((aggregate rows).length : ℚ) := by exact_mod_cast hk
  have hhi : (percentages rows).sum - 100 ≤ ((aggregate rows).length : ℤ) - 1 := by
    by_contra hcon
    push_neg at hcon
    have h1 : ((aggregate rows).length : ℤ) ≤ (percentages rows).sum - 100 := by omega
    have h2 : (((aggregate rows).length : ℕ) : ℚ) ≤ ((percentages rows).sum : ℚ) - 100 := by
      exact_mod_cast h1
    rw [hS] at h2
    linarith [herr.2]
  have hlo : -(((aggregate rows).length : ℤ) - 1) ≤ (percentages rows).sum - 100 := by
    by_contra hcon
    push_neg at hcon
    have h1 : (percentages rows).sum - 100 ≤ -((aggregate rows).length : ℤ) := by omega
    have h2 : ((percentages rows).sum : ℚ) - 100 ≤ -(((aggregate rows).length : ℕ) : ℚ) := by
      exact_mod_cast h1
    rw [hS] at h2
    linarith [herr.1]
  omega

/-- A one-row subset used as the concrete input of the C6 witness. -/
def rows1 : List Row := [⟨1, some "c"⟩]

/-- Witness for C6 (amended) at a concrete input: a single-category subset,
whose percentage list is [100]. -/
theorem percentage_sum_bound_witness :
    0 < totalCount rows1 ∧
    ((percentages rows1).sum - 100).natAbs ≤ (aggregate rows1).length - 1 :=
  ⟨by decide, percentage_sum_bound rows1 (by decide)⟩

/-- An eight-row subset (one row of category 1, seven of category 2) used as
the concrete input of the C6 counterexample. -/
def rows8 : List Row := ⟨1, some "c"⟩ :: List.replicate 7 ⟨2, some "d"⟩

/-- Claim C6 counterexample: for the subset `rows8` the category-1 share is
100/8 = 12.5 percent.  Round-half-up (the tie policy asserted by the claim)
yields 13, but the code (Python round, ties to even) yields 12: the
percentages are [12, 88]. -/
theorem percentage_tie_cex :
    percentages rows8 = [12, 88] ∧ round ((1 : ℚ) / 8 * 100) = 13 := by
  constructor
  · have h1 : aggregate rows8 = [⟨1, some "c", 1⟩, ⟨2, some "d", 7⟩] := by decide
    have h2 : totalCount rows8 = 8 := by decide
    rw [percentages, h2, h1]
    simp only [List.map_cons, List.map_nil]
    rw [roundHalfEven, roundHalfEven]
    rw [Int.fract, Int.fract]
    norm_num
  · rw [round_eq]
    norm_num

/-- Claim C4 (amended): in polygon mode the resolved subset is exactly the
set of dataset points strictly inside the polygon: a position belongs to the
subset if and only if it is a valid index whose point satisfies the interior
containment test, and any point lying on a polygon edge is excluded (shapely
`within` does not hold on the boundary). -/
theorem polygon_within_membership (pts poly : List Pt) (i : Nat) :
    (i ∈ resolveDrawnPolygon pts poly ↔
      i < pts.length ∧ withinPolygon (pts.getD i ⟨0, 0⟩) poly = true) ∧
    ((polyEdges poly).any (fun e => onSeg e.1 e.2 (pts.getD i ⟨0, 0⟩)) = true →
      i ∉ resolveDrawnPolygon pts poly) := by
  constructor
  · exact mem_idxFilter
  · intro hb hmem
    have h := (mem_idxFilter.mp hmem).2
    rw [withinPolygon, hb] at h
    simp at h

/-- Witness for C4 (amended) at a concrete input: the point (1,1) inside the
unit-square-like polygon (0,0),(2,0),(2,2),(0,2) is resolved as a member. -/
theorem polygon_within_membership_witness :
    (0 : Nat) ∈ resolveDrawnPolygon [⟨1, 1⟩] [⟨0, 0⟩, ⟨2, 0⟩, ⟨2, 2⟩, ⟨0, 2⟩] :=
  ((polygon_within_membership [⟨1, 1⟩] [⟨0, 0⟩, ⟨2, 0⟩, ⟨2, 2⟩, ⟨0, 2⟩] 0).1).mpr
    ⟨by norm_num,
     by norm_num [withinPolygon, polyEdges, onSeg, edgeCrosses, List.zip, List.zipWith,
       List.countP_cons, List.countP_nil, List.any_cons, List.any_nil]⟩

/-- Claim C4 counterexample: the point (1,0) lies on the boundary edge from
(0,0) to (2,0) of the polygon (0,0),(2,0),(2,2),(0,2).  The claim says the
record is a member of the subset; the code excludes it, so the resolved
subset of the one-point dataset [(1,0)] is empty. -/
theorem polygon_boundary_cex :
    withinPolygon ⟨1, 0⟩ [⟨0, 0⟩, ⟨2, 0⟩, ⟨2, 2⟩, ⟨0, 2⟩] = false ∧
    resolveDrawnPolygon [⟨1, 0⟩] [⟨0, 0⟩, ⟨2, 0⟩, ⟨2, 2⟩, ⟨0, 2⟩] = [] := by
  constructor
  · norm_num [withinPolygon, polyEdges, onSeg, edgeCrosses, List.zip, List.zipWith,
      List.countP_cons, List.countP_nil, List.any_cons, List.any_nil]
  · norm_num [resolveDrawnPolygon, idxFilter, withinPolygon, polyEdges, onSeg, edgeCrosses,
      List.zip, List.zipWith, List.countP_cons, List.countP_nil, List.any_cons, List.any_nil,
      List.range_succ]

/-- Claim C5 (amended): a stored polygon with a non-empty position list of
fewer than 3 vertices is not treated as "no region": the shapely Polygon
constructor raises ValueError (modelled `none`), which escapes the callback;
the subset is not the full Dataset. -/
theorem degenerate_polygon_raises (positions : List (ℚ × ℚ)) (pts : List Pt)
    (hne : positions ≠ []) (hlt : positions.length < 3) :
    resolveStoredPolygon positions pts = none := by
  have hie : positions.isEmpty = false := by
    cases positions with
    | nil => exact absurd rfl hne
    | cons a l => rfl
  rw [resolveStoredPolygon, if_neg (by simp [hie])]
  have hmk : mkPolygon (positions.map (fun q => (⟨q.2, q.1⟩ : Pt))) = none := by
    rw [mkPolygon, List.length_map, if_pos hlt]
  rw [hmk]

/-- Witness for C5 (amended) at a concrete input: a stored two-vertex
position list. -/
theorem degenerate_polygon_raises_witness :
    ([((0 : ℚ), (1 : ℚ)), ((2 : ℚ), (3 : ℚ))] : List (ℚ × ℚ)) ≠ [] ∧
    ([((0 : ℚ), (1 : ℚ)), ((2 : ℚ), (3 : ℚ))] : List (ℚ × ℚ)).length < 3 ∧
    resolveStoredPolygon [((0 : ℚ), (1 : ℚ)), ((2 : ℚ), (3 : ℚ))] [⟨7, 7⟩] = none :=
  ⟨by simp, by simp,
   degenerate_polygon_raises [((0 : ℚ), (1 : ℚ)), ((2 : ℚ), (3 : ℚ))] [⟨7, 7⟩]
     (by simp) (by simp)⟩

/-- Claim C5 counterexample: submitting the stored two-vertex polygon
[(0,0), (1,1)] over a one-point dataset.  The claim predicts the full
dataset (positions [0]) with no error; the code raises (none). -/
theorem degenerate_polygon_cex :
    resolveStoredPolygon [(0, 0), (1, 1)] [⟨5, 5⟩] = none ∧
    resolveStoredPolygon [(0, 0), (1, 1)] [⟨5, 5⟩] ≠ some (List.range 1) := by
  refine ⟨?_, ?_⟩ <;> decide

/-- Claim C7 (amended): a column-changed event is not rejected gracefully.
The color-attachment step of the callback succeeds exactly when the
requested column is present in both the Dataset schema and the color
registry; for a column absent from the schema the lookup raises KeyError
(modelled `none`), which propagates out of the handler instead of keeping
the prior view. -/
theorem invalid_column_characterization (frame : List (String × List ℕ))
    (registry : List (String × List (ℕ × String))) (col : String) :
    (update_map_colors frame registry col).isSome =
      ((frame.find? (fun c => c.1 == col)).isSome &&
       (registry.find? (fun c => c.1 == col)).isSome) := by
  rw [update_map_colors, selectSeries]
  cases hf : frame.find? (fun c => c.1 == col) with
  | none => simp
  | some p =>
    cases hr : registry.find? (fun c => c.1 == col) with
    | none => simp
    | some q => simp

/-- Claim C7 counterexample: a frame and registry holding only column "A";
the event requests column "B".  The claim predicts the event is rejected
with the prior view kept and no exception; the code raises KeyError,
modelled by `none`. -/
theorem invalid_column_cex :
    update_map_colors [("A", [1])] [("A", [(1, "c")])] "B" = none := by
  decide
